import Mathlib

/-!
Shallow embedding of the data-preparation core of `EM_Image_Segmentation`
(`FIBSEM_EPFL/scripts/data.py`), together with proofs about its tiling,
merging, cropping, filtering and augmentation routines.

Conventions used throughout:
* 4D numpy volumes `[N, H, W, C]` are embedded as total functions
  `ℕ → ℕ → ℕ → ℕ → ℚ` (image, row, column, channel) plus explicit dimension
  parameters; single tiles are `ℕ → ℕ → ℕ → ℚ`.
* Python ints are embedded as `ℕ` (all quantities involved are non-negative);
  pixel values (numpy float32) are embedded as `ℚ`.  Where the source uses
  float true-division of integers (`a / b` with later `int(...)`), the result
  is exact whenever the operands are at most `2 ^ 53`, and the theorems that
  depend on those code paths carry that bound as a hypothesis.
* Places where the Python code raises (assert failures, `range` with step 0,
  numpy broadcast `ValueError` on a shape-mismatched slice assignment) are
  modelled by explicit boolean guard predicates; the computational
  definitions themselves are total.
-/

/-- CPython's `sys.maxsize` on a 64-bit build; the initial value of `min_d`
in the minimum-overlap search loops of `data.py`. -/
def pyMaxsize : ℕ := 2 ^ 63 - 1

/-- Python `range(0, stop, step)` for a non-negative `stop` and positive
`step`: the multiples of `step` below `stop`.  (Python raises `ValueError`
for `step = 0`; that case is excluded by the guard predicates below, and
this function then returns `[]`.) -/
def pyRange (stop step : ℕ) : List ℕ :=
  List.range' 0 ((stop + step - 1) / step) step

/-- One iteration of the minimum-overlap configuration search of
`crop_data_with_overlap` (data.py lines 479-486) and
`merge_data_with_overlap` (lines 581-588).  The accumulator is the triple
`(min_d, rows, columns)`; iteration `i` updates it when `subdivision % i == 0`
and `abs(subdivision/i - i) < min_d`. -/
def ovStep (s : ℕ) (acc : ℕ × ℕ × ℕ) (i : ℕ) : ℕ × ℕ × ℕ :=
  if s % i = 0 ∧ Nat.dist (s / i) i < acc.1 then (Nat.dist (s / i) i, i, s / i) else acc

/-- The minimum-overlap configuration loop of `crop_data_with_overlap`
(data.py lines 478-486): starting from `(sys.maxsize, 1, 1)`, scan
`i in range(1, int(subdivision/2)+1)`.  Python computes `subdivision/i` by
float true-division; since the loop only uses it when `i ∣ subdivision`, the
value is the exact integer `subdivision / i` whenever `subdivision ≤ 2^53`. -/
def findMinOverlapConfig (s : ℕ) : ℕ × ℕ × ℕ :=
  (List.range' 1 (s / 2)).foldl (ovStep s) (pyMaxsize, 1, 1)

/-- The function `merge_data_with_overlap` (data.py lines 580-588) repeats the
identical search loop, line for line. -/
def findMinOverlapConfigMerge (s : ℕ) : ℕ × ℕ × ℕ :=
  (List.range' 1 (s / 2)).foldl (ovStep s) (pyMaxsize, 1, 1)

/-- The `rows` chosen by the minimum-overlap search. -/
def ovRows (s : ℕ) : ℕ := (findMinOverlapConfig s).2.1

/-- The `columns` chosen by the minimum-overlap search. -/
def ovCols (s : ℕ) : ℕ := (findMinOverlapConfig s).2.2

/-- Loop invariant for the minimum-overlap search after the iterations
`i = 1, …, n`, phrased on the components `(d, r, c)` of the accumulator
`(min_d, rows, columns)`: either no divisor produced a distance below
`sys.maxsize` and the accumulator still holds the initial value, or the
accumulator holds the first divisor (smallest `i`) realising the minimal
value of `|subdivision/i - i|` seen so far. -/
def OvInv (s n d r c : ℕ) : Prop :=
  (d = pyMaxsize ∧ r = 1 ∧ c = 1 ∧
    ∀ i, 1 ≤ i → i ≤ n → ¬(s % i = 0 ∧ Nat.dist (s / i) i < pyMaxsize))
  ∨ (1 ≤ r ∧ r ≤ n ∧ s % r = 0 ∧ c = s / r ∧
      d = Nat.dist (s / r) r ∧ d < pyMaxsize ∧
      (∀ i, 1 ≤ i → i ≤ n → s % i = 0 → d ≤ Nat.dist (s / i) i) ∧
      (∀ i, 1 ≤ i → i ≤ n → s % i = 0 → Nat.dist (s / i) i = d → r ≤ i))

/-- Per-axis overlap amount of the Overlap Tiler (data.py lines 503-519 and,
identically, 596-612): `y_ov = int(abs(dim - window_size*k)/(k-1))` when the
axis carries `k ≠ 1` tiles, else `0`.  `k` is `rows` for the height axis
(`dim = data.shape[1]`) and `columns` for the width axis. -/
def ovAxisOv (dim ws k : ℕ) : ℕ :=
  if k = 1 then 0 else Nat.dist dim (ws * k) / (k - 1)

/-- Per-axis remainder `r = abs(dim - window_size*k) % (k-1)` (0 when `k = 1`). -/
def ovAxisR (dim ws k : ℕ) : ℕ :=
  if k = 1 then 0 else Nat.dist dim (ws * k) % (k - 1)

/-- Per-axis step `step = window_size - y_ov` (`dim` itself when `k = 1`). -/
def ovAxisStep (dim ws k : ℕ) : ℕ :=
  if k = 1 then dim else ws - ovAxisOv dim ws k

/-- The loop positions `for i in range(0, dim - ov, step)` of the crop and
merge loops (data.py lines 525-526, 615-616, 641-642). -/
def ovAxisPos (dim ws k : ℕ) : List ℕ :=
  pyRange (dim - ovAxisOv dim ws k) (ovAxisStep dim ws k)

/-- The trailing adjustment `d = 0 if (i+window_size) < dim else r` applied
at loop position `i` (data.py lines 527-528 etc.). -/
def ovAxisD (dim ws k i : ℕ) : ℕ :=
  if i + ws < dim then 0 else ovAxisR dim ws k

/-- The actual start `i - d` of the slice taken at loop position `i`. -/
def ovAxisStart (dim ws k i : ℕ) : ℕ := i - ovAxisD dim ws k i

/-- All slice starts of one axis, in loop order. -/
def ovAxisStarts (dim ws k : ℕ) : List ℕ :=
  (ovAxisPos dim ws k).map (ovAxisStart dim ws k)

/-- Pixel `y` lies in the region written at loop position `i`: numpy's slice
`i-d : i+window_size` on an axis of extent `dim` covers `[i-d, min (i+ws) dim)`
(for `d ≤ i`; a negative start would index from the end and is ruled out by
`ovAxisSlicesOk` wherever merging semantics is asserted). -/
def OvHit (dim ws k i y : ℕ) : Prop :=
  ovAxisStart dim ws k i ≤ y ∧ y < min (i + ws) dim

instance (dim ws k i y : ℕ) : Decidable (OvHit dim ws k i y) := by
  unfold OvHit; infer_instance

/-- The crop/merge loops assign a `(window_size, window_size, C)` tile
to/from the slice at each loop position; numpy raises `ValueError` unless
every such slice region has extent exactly `window_size` and a non-negative
start, and Python's `range` raises for `step = 0`.  This guard states that
the whole loop runs without raising. -/
def ovAxisSlicesOk (dim ws k : ℕ) : Bool :=
  decide (ovAxisStep dim ws k ≠ 0) &&
    (ovAxisPos dim ws k).all fun i =>
      decide (ovAxisD dim ws k i ≤ i) &&
        decide (min (i + ws) dim - ovAxisStart dim ws k i = ws)

/-- The assert statements of `crop_data_with_overlap` (data.py lines
462-469 and 491-498): `subdivision` is 1 or even, `window_size` is at most
either spatial extent, and (for `subdivision ≠ 1`) `window_size*rows ≥ H`
and `window_size*columns ≥ W`. -/
def ovCropAssertsOk (H W ws s : ℕ) : Bool :=
  (decide (s % 2 = 0) || decide (s = 1)) && decide (ws ≤ H) && decide (ws ≤ W) &&
    (decide (s = 1) ||
      (decide (H ≤ ws * ovRows s) && decide (W ≤ ws * ovCols s)))

/-- Well-formed overlap geometry: on each axis the remainder is smaller than
the step.  (When this fails — e.g. `H = W = 8`, `window_size = 4`,
`subdivision = 16` — the loop produces fewer than `rows`/`columns` positions
and its final slice has extent `window_size + r ≠ window_size`, so the crop
and merge loops raise `ValueError`.) -/
def ovWellFormed (H W ws s : ℕ) : Bool :=
  decide (ovAxisR H ws (ovRows s) < ovAxisStep H ws (ovRows s)) &&
    decide (ovAxisR W ws (ovCols s) < ovAxisStep W ws (ovCols s))

/-- The tiles written by the crop loop of `crop_data_with_overlap` (data.py
lines 521-532), in write order: `cont` starts at 0 and increments once per
innermost iteration, with the image index outermost, then the row positions,
then the column positions.  The tile written at position `(i, j)` is the
window `data[k, i-d_y : i-d_y+ws, j-d_x : j-d_x+ws, :]` (slice extent `ws`
under `ovAxisSlicesOk`). -/
def cropWithOverlapList (N H W : ℕ) (data : ℕ → ℕ → ℕ → ℕ → ℚ) (ws s : ℕ) :
    List (ℕ → ℕ → ℕ → ℚ) :=
  (List.range N).flatMap fun k =>
    (ovAxisStarts H ws (ovRows s)).flatMap fun sy =>
      (ovAxisStarts W ws (ovCols s)).map fun sx =>
        fun y x c => data k (sy + y) (sx + x) c

/-- The array returned by `crop_data_with_overlap`: it is allocated as
`np.zeros((N*subdivision, ws, ws, C))` (line 473) and the loop fills the
prefix of tiles in `cropWithOverlapList`; any slots beyond the written
prefix keep the value 0. -/
def crop_data_with_overlap (N H W : ℕ) (data : ℕ → ℕ → ℕ → ℕ → ℚ)
    (ws s : ℕ) : ℕ → ℕ → ℕ → ℕ → ℚ := fun t =>
  (cropWithOverlapList N H W data ws s).getD t fun _ _ _ => 0

/-- The per-pixel overlap count computed by the `overlap_matrix` loop of
`merge_data_with_overlap` (data.py lines 614-620): the number of loop
positions whose written region contains the pixel.  The float matrix in the
source holds exactly these integer values (the channel index is immaterial:
all channels receive the same count). -/
def overlapCount (os1 os0 ws s y x : ℕ) : ℕ :=
  ∑ a ∈ Finset.range (ovAxisPos os1 ws (ovRows s)).length,
    ∑ b ∈ Finset.range (ovAxisPos os0 ws (ovCols s)).length,
      if OvHit os1 ws (ovRows s) ((ovAxisPos os1 ws (ovRows s)).getD a 0) y ∧
          OvHit os0 ws (ovCols s) ((ovAxisPos os0 ws (ovCols s)).getD b 0) x
        then 1 else 0

/-- The additive accumulation of the merge loop (data.py lines 638-646):
`merged_data[k, i-d_y:i+ws, j-d_x:j+ws, :] += data[cont]`, with `cont`
incremented once per iteration, image index `k` outermost; image `k` hence
consumes the `cont` block `[k*LY*LX, (k+1)*LY*LX)`.  The contribution of
the tile at position pair `(a, b)` to a pixel it covers is the tile value at
the offset of the pixel from the slice start. -/
def mergeAccum (tiles : ℕ → ℕ → ℕ → ℕ → ℚ) (os1 os0 ws s k y x c : ℕ) : ℚ :=
  ∑ a ∈ Finset.range (ovAxisPos os1 ws (ovRows s)).length,
    ∑ b ∈ Finset.range (ovAxisPos os0 ws (ovCols s)).length,
      if OvHit os1 ws (ovRows s) ((ovAxisPos os1 ws (ovRows s)).getD a 0) y ∧
          OvHit os0 ws (ovCols s) ((ovAxisPos os0 ws (ovCols s)).getD b 0) x
        then
          tiles (k * ((ovAxisPos os1 ws (ovRows s)).length *
                  (ovAxisPos os0 ws (ovCols s)).length) +
                a * (ovAxisPos os0 ws (ovCols s)).length + b)
            (y - ovAxisStart os1 ws (ovRows s)
                  ((ovAxisPos os1 ws (ovRows s)).getD a 0))
            (x - ovAxisStart os0 ws (ovCols s)
                  ((ovAxisPos os0 ws (ovCols s)).getD b 0)) c
        else 0

/-- The merged output of `merge_data_with_overlap` (data.py lines 566-648):
`merged_data[k] = np.true_divide(accumulated, overlap_matrix)` (line 648).
`original_shape` is passed so that `original_shape[1] = os1` is the height
and `original_shape[0] = os0` the width of the reconstruction (lines
568-569).  At a pixel with overlap count 0 `np.true_divide` yields NaN
(0/0); in this embedding `ℚ` division by zero yields 0 — both differ from
any non-zero original value, and every theorem below about merged values
only concerns pixels with count ≥ 1. -/
def merge_data_with_overlap (tiles : ℕ → ℕ → ℕ → ℕ → ℚ)
    (os1 os0 ws s k y x c : ℕ) : ℚ :=
  mergeAccum tiles os1 os0 ws s k y x c / (overlapCount os1 os0 ws s y x : ℚ)

/-- Concrete counterexample volume for the round-trip claim: one `2 × 2`
single-channel image with pairwise distinct non-zero pixel values
`[[1, 2], [3, 4]]`. -/
def cexVol1 : ℕ → ℕ → ℕ → ℕ → ℚ := fun _ y x _ => y * 2 + x + 1

/-- The `h_num` of `crop_data` (data.py line 346):
`int(data.shape[1] / crop_shape[0]) + (data.shape[1] % crop_shape[0] > 0)`.
`int(a/b)` on non-negative Python ints equals floor division whenever the
quotient's float is exact (always the case in the theorems below). -/
def crop_data_hnum (H c0 : ℕ) : ℕ :=
  H / c0 + (if H % c0 > 0 then 1 else 0)

/-- The `v_num` of `crop_data` (data.py line 347):
`int(data.shape[2] / crop_shape[1]) + (data.shape[2] % crop_shape[1] > 0)`. -/
def crop_data_vnum (W c1 : ℕ) : ℕ :=
  W / c1 + (if W % c1 > 0 then 1 else 0)

/-- The function `crop_data` allocates the padded buffer as
`np.zeros((N, h_num*crop_shape[1], v_num*crop_shape[0], C))` (lines 357-358)
and then copies `r_data[:N, :H, :W, :C] = data` (line 359).  numpy raises
`ValueError` (shape mismatch after slice clamping) unless the buffer is at
least as large as the data on both spatial axes; this guard states that the
copy succeeds. -/
def crop_data_pad_ok (H W c0 c1 : ℕ) : Bool :=
  decide (H ≤ crop_data_hnum H c0 * c1) && decide (W ≤ crop_data_vnum W c1 * c0)

/-- The padded buffer contents after the zero-allocation and the copy
`r_data[:N, :H, :W, :C] = data` (lines 357-359, valid under
`crop_data_pad_ok`): original data in the low-index region, zeros beyond. -/
def crop_data_padded (N H W C : ℕ) (data : ℕ → ℕ → ℕ → ℕ → ℚ) :
    ℕ → ℕ → ℕ → ℕ → ℚ := fun k y x c =>
  if k < N ∧ y < H ∧ x < W ∧ c < C then data k y x c else 0

/-- The pixel-count accumulator `c` of `__foreground_percentage` (data.py
lines 308-312): the nested loop counts the entries of the 2D mask equal to
`class_tag`. -/
def foreground_count (h w : ℕ) (mask : ℕ → ℕ → ℚ) (class_tag : ℚ) : ℕ :=
  ∑ i ∈ Finset.range h, ∑ j ∈ Finset.range w,
    if mask i j = class_tag then 1 else 0

/-- The function `__foreground_percentage(mask, class_tag)` (data.py lines 296-314):
returns `(c*100)/(mask.shape[0]*mask.shape[1])` by true division.  The
function only reads its arguments (no side effects).  When `crop_data` calls
it on a `(h, w, 1)` tile, the comparison `mask[i][j] == class_tag` compares
the one-element channel vector, which is truthy exactly when channel 0
equals the tag, so a 2D view suffices. -/
def foreground_percentage (h w : ℕ) (mask : ℕ → ℕ → ℚ) (class_tag : ℚ) : ℚ :=
  ((foreground_count h w mask class_tag : ℕ) : ℚ) * 100 / ((h : ℚ) * (w : ℚ))

/-- The `4 × 4` mask `[[1,1,0,0],[1,1,0,0],[0,0,0,0],[0,0,0,0]]` of the
spec's concrete Foreground Ratio scenario. -/
def cexMask7 : ℕ → ℕ → ℚ := fun i j => if i < 2 ∧ j < 2 then 1 else 0

/-- Length of the numpy slice `lo:hi` on an axis of extent `n`
(non-negative bounds): `min hi n - min lo n`. -/
def pySliceLen (lo hi n : ℕ) : ℕ := min hi n - min lo n

/-- The `(img_num, i, j)` iteration triples of `crop_data`'s nested loops
(data.py lines 377-379 and 401-403), in iteration order; `cont` equals the
position of a triple in this list. -/
def gridTriples (N hn vn : ℕ) : List (ℕ × ℕ × ℕ) :=
  (List.range N).flatMap fun k =>
    (List.range hn).flatMap fun i =>
      (List.range vn).map fun j => (k, i, j)

/-- The foreground percentage evaluated by the discard pass of `crop_data`
(lines 380-382) on the mask tile
`r_data_mask[img, i*crop_shape[0]:(i+1)*crop_shape[1],
j*crop_shape[0]:(j+1)*crop_shape[1]]` (note the mixed use of
`crop_shape[0]`/`crop_shape[1]` in the source), with the default
`class_tag = 1`; channel 0 of the padded mask is consulted. -/
def crop_data_tileP (N H W C : ℕ) (mask : ℕ → ℕ → ℕ → ℕ → ℚ) (c0 c1 : ℕ) :
    ℕ × ℕ × ℕ → ℚ := fun p =>
  foreground_percentage
    (pySliceLen (p.2.1 * c0) ((p.2.1 + 1) * c1) (crop_data_hnum H c0 * c1))
    (pySliceLen (p.2.2 * c0) ((p.2.2 + 1) * c1) (crop_data_vnum W c1 * c0))
    (fun a b => crop_data_padded N H W C mask p.1 (p.2.1 * c0 + a) (p.2.2 * c0 + b) 0)
    1

/-- The list `selected_images` built by the discard pass of `crop_data` (data.py
lines 374-388): the `cont` values whose tile's foreground percentage
strictly exceeds `d_percentage`, in iteration order. -/
def crop_data_selected (N H W C : ℕ) (mask : ℕ → ℕ → ℕ → ℕ → ℚ) (c0 c1 : ℕ)
    (d : ℚ) : List ℕ :=
  ((gridTriples N (crop_data_hnum H c0) (crop_data_vnum W c1)).enum.filter
      fun q => decide (d < crop_data_tileP N H W C mask c0 c1 q.2)).map
    fun q => q.1

/-- The data tile of `crop_data` at triple `(k, i, j)` (lines 409-410 and
419-420): `r_data[k, i*crop_shape[0]:(i+1)*crop_shape[1],
j*crop_shape[0]:(j+1)*crop_shape[1], :]`, read from the padded buffer. -/
def crop_data_tile (N H W C : ℕ) (data : ℕ → ℕ → ℕ → ℕ → ℚ) (c0 c1 : ℕ) :
    ℕ × ℕ × ℕ → ℕ → ℕ → ℕ → ℚ := fun p a b c =>
  crop_data_padded N H W C data p.1 (p.2.1 * c0 + a) (p.2.2 * c0 + b) c

/-- The write pass of `crop_data` on the discard path (data.py lines
398-425, taken when `d_percentage > 0`, a mask is given and
`selected_images` is non-empty): the output array has
`total_cropped - discarded` rows (line 391); walking all triples with
counter `cont` and index `l_i`, a tile is written to row `l_i` whenever
`selected_images[l_i] == cont or l_i == len(selected_images) - 1`, and
`l_i` advances only when additionally `l_i != len(selected_images) - 1`. -/
def crop_data_discard_out (N H W C : ℕ) (data mask : ℕ → ℕ → ℕ → ℕ → ℚ)
    (c0 c1 : ℕ) (d : ℚ) : ℕ → ℕ → ℕ → ℕ → ℚ :=
  let sel := crop_data_selected N H W C mask c0 c1 d
  let step := fun (st : ℕ × (ℕ → ℕ → ℕ → ℕ → ℚ)) (q : ℕ × (ℕ × ℕ × ℕ)) =>
    if sel.getD st.1 0 = q.1 ∨ st.1 = sel.length - 1 then
      (if st.1 ≠ sel.length - 1 then st.1 + 1 else st.1,
        Function.update st.2 st.1 (crop_data_tile N H W C data c0 c1 q.2))
    else st
  (((gridTriples N (crop_data_hnum H c0) (crop_data_vnum W c1)).enum).foldl
    step (0, fun _ _ _ _ => 0)).2

/-- Concrete failing input for the discard filter: one `2 × 2` image
`[[1, 2], [3, 4]]` (values pairwise distinct)… -/
def cexData3 : ℕ → ℕ → ℕ → ℕ → ℚ := fun _ y x _ => y * 2 + x + 1

/-- Mask for the discard-filter failing input: `[[1, 0], [0, 0]]` — only the
top-left `1 × 1` tile has any foreground. -/
def cexMask3 : ℕ → ℕ → ℕ → ℕ → ℚ := fun _ y x _ =>
  if y = 0 ∧ x = 0 then 1 else 0

/-- The four mutually exclusive outcomes of the flip block of
`ImageDataGenerator.apply_transform`. -/
inductive FlipKind where
  | vOnly
  | hOnly
  | both
  | noFlip
deriving DecidableEq

/-- The flip block of `apply_transform` (data.py lines 1100-1129): one
uniform draw `prob` in `[0, 1)` is tested against the chain
`if self.vflip == True and 0 <= prob < 0.25` (vertical flip),
`elif self.hflip == True and 0.25 <= prob < 0.5` (horizontal flip),
`elif self.hflip == True and 0.5 <= prob < 0.75` (vertical + horizontal
flip — note the source gates this branch on `hflip`, not on `vflip`),
else no flip.  The float literals 0.25, 0.5, 0.75 are exact binary
fractions. -/
def flipOutcome (vflip hflip : Bool) (prob : ℚ) : FlipKind :=
  if vflip = true ∧ 0 ≤ prob ∧ prob < 1/4 then FlipKind.vOnly
  else if hflip = true ∧ 1/4 ≤ prob ∧ prob < 1/2 then FlipKind.hOnly
  else if hflip = true ∧ 1/2 ≤ prob ∧ prob < 3/4 then FlipKind.both
  else FlipKind.noFlip

/-- Embedding of `np.flip(img, 0)` on an image of height `H`. -/
def npFlip0 (H : ℕ) (img : ℕ → ℕ → ℕ → ℚ) : ℕ → ℕ → ℕ → ℚ :=
  fun y x c => img (H - 1 - y) x c

/-- Embedding of `np.flip(img, 1)` on an image of width `W`. -/
def npFlip1 (W : ℕ) (img : ℕ → ℕ → ℕ → ℚ) : ℕ → ℕ → ℕ → ℚ :=
  fun y x c => img y (W - 1 - x) c

/-- The image produced by the flip block (data.py lines 1100-1129): the
vertical branch applies `np.flip(·, 0)`, the horizontal branch
`np.flip(·, 1)`, the combined branch applies axis 0 then axis 1, and
otherwise the image passes through unchanged.  (The mask receives the same
flips; the counters/description are not needed for the claims below.) -/
def applyFlip (vf hf : Bool) (p : ℚ) (H W : ℕ) (img : ℕ → ℕ → ℕ → ℚ) :
    ℕ → ℕ → ℕ → ℚ :=
  match flipOutcome vf hf p with
  | FlipKind.vOnly => npFlip0 H img
  | FlipKind.hOnly => npFlip1 W img
  | FlipKind.both => npFlip1 W (npFlip0 H img)
  | FlipKind.noFlip => img

/-- The function `random_crop` (data.py lines 1732-1780).  The leading
`assert img.shape[2] == 1` is modelled by returning `none` when the channel
count differs from 1.  Randomness is modelled by explicit arguments:
`probIdx` stands for the index drawn by `np.random.choice` in the
probability-map branch (converted to coordinates by `np.unravel_index`,
i.e. `oy = probIdx / W`, `ox = probIdx % W`), and `randY`/`randX` stand for
the uniform draws of `np.random.randint(0, dim - crop + 1)` (reduced into
range by `%`).  `int(random_crop_size[i]/2)` is `dy/2`/`dx/2` by floor.
The returned crops are the sub-windows `img[y:y+dy, x:x+dx, :]` and
`mask[y:y+dy, x:x+dx, :]`. -/
def random_crop (H W Cch : ℕ) (img mask : ℕ → ℕ → ℕ → ℚ) (dy dx : ℕ)
    (val probMap : Bool) (probIdx randY randX : ℕ) :
    Option ((ℕ → ℕ → ℕ → ℚ) × (ℕ → ℕ → ℕ → ℚ)) :=
  if Cch = 1 then
    let yx : ℕ × ℕ :=
      if val then (0, 0)
      else if probMap then
        let oy := probIdx / W
        let ox := probIdx % W
        ((if oy < dy / 2 then 0
          else if H - dy / 2 < oy then H - dy else oy - dy / 2),
          (if ox < dx / 2 then 0
          else if W - dx / 2 < ox then W - dx else ox - dx / 2))
      else (randY % (H - dy + 1), randX % (W - dx + 1))
    some (fun a b c => img (yx.1 + a) (yx.2 + b) c,
      fun a b c => mask (yx.1 + a) (yx.2 + b) c)
  else none

theorem ovInv_step (s n d r c : ℕ) (h : OvInv s n d r c) :
    OvInv s (n + 1) (ovStep s (d, r, c) (n + 1)).1 (ovStep s (d, r, c) (n + 1)).2.1
      (ovStep s (d, r, c) (n + 1)).2.2 := by
  unfold ovStep
  by_cases hc : s % (n + 1) = 0 ∧ Nat.dist (s / (n + 1)) (n + 1) < d
  · rw [if_pos hc]
    right
    dsimp only
    rcases h with ⟨hd, hr, hcc, hnone⟩ | ⟨h1, h2, h3, h4, h5, h6, hmin, htie⟩
    · subst hd
      refine ⟨by omega, le_refl _, hc.1, rfl, rfl, hc.2, ?_, ?_⟩
      · intro i hi1 hi2 hmod
        rcases Nat.lt_or_ge i (n + 1) with hlt | hge
        · have := hnone i hi1 (by omega)
          simp only [not_and, not_lt] at this
          exact le_trans (le_of_lt hc.2) (this hmod)
        · have : i = n + 1 := by omega
          subst this; exact le_refl _
      · intro i hi1 hi2 hmod hdist
        rcases Nat.lt_or_ge i (n + 1) with hlt | hge
        · have := hnone i hi1 (by omega)
          simp only [not_and, not_lt] at this
          have h9 := this hmod
          have h10 := hc.2
          omega
        · omega
    · refine ⟨by omega, le_refl _, hc.1, rfl, rfl, lt_trans hc.2 h6, ?_, ?_⟩
      · intro i hi1 hi2 hmod
        rcases Nat.lt_or_ge i (n + 1) with hlt | hge
        · exact le_trans (le_of_lt hc.2) (hmin i hi1 (by omega) hmod)
        · have : i = n + 1 := by omega
          subst this; exact le_refl _
      · intro i hi1 hi2 hmod hdist
        rcases Nat.lt_or_ge i (n + 1) with hlt | hge
        · have h9 := hmin i hi1 (by omega) hmod
          have h10 := hc.2
          omega
        · omega
  · rw [if_neg hc]
    dsimp only
    rcases h with ⟨hd, hr, hcc, hnone⟩ | ⟨h1, h2, h3, h4, h5, h6, hmin, htie⟩
    · left
      refine ⟨hd, hr, hcc, ?_⟩
      intro i hi1 hi2
      rcases Nat.lt_or_ge i (n + 1) with hlt | hge
      · exact hnone i hi1 (by omega)
      · have : i = n + 1 := by omega
        subst this
        rw [← hd]
        exact hc
    · right
      refine ⟨h1, by omega, h3, h4, h5, h6, ?_, ?_⟩
      · intro i hi1 hi2 hmod
        rcases Nat.lt_or_ge i (n + 1) with hlt | hge
        · exact hmin i hi1 (by omega) hmod
        · have : i = n + 1 := by omega
          subst this
          push_neg at hc
          exact hc hmod
      · intro i hi1 hi2 hmod hdist
        rcases Nat.lt_or_ge i (n + 1) with hlt | hge
        · exact htie i hi1 (by omega) hmod hdist
        · omega

theorem ovInv_step' (s n : ℕ) (acc : ℕ × ℕ × ℕ)
    (h : OvInv s n acc.1 acc.2.1 acc.2.2) :
    OvInv s (n + 1) (ovStep s acc (n + 1)).1 (ovStep s acc (n + 1)).2.1
      (ovStep s acc (n + 1)).2.2 := by
  obtain ⟨d, r, c⟩ := acc
  exact ovInv_step s n d r c h

theorem ovInv_fold (s n : ℕ) :
    OvInv s n ((List.range' 1 n).foldl (ovStep s) (pyMaxsize, 1, 1)).1
      ((List.range' 1 n).foldl (ovStep s) (pyMaxsize, 1, 1)).2.1
      ((List.range' 1 n).foldl (ovStep s) (pyMaxsize, 1, 1)).2.2 := by
  induction n with
  | zero =>
    left
    exact ⟨rfl, rfl, rfl, fun i hi1 hi2 => by omega⟩
  | succ n ih =>
    have hr : List.range' 1 (n + 1) = List.range' 1 n ++ [1 + n] := by
      have h := (List.range'_concat 1 n :
        List.range' 1 (n + 1) = List.range' 1 n ++ [1 + 1 * n])
      simpa using h
    rw [hr, List.foldl_append]
    simp only [List.foldl_cons, List.foldl_nil]
    have := ovInv_step' s n _ ih
    simpa [Nat.add_comm 1 n] using this

/-- Summary of the minimum-overlap search for `2 ≤ subdivision ≤ 2^53`:
`rows * columns = subdivision`, `rows ∈ [1, subdivision/2]`, the distance
`|columns - rows|` is minimal over all factor pairs, and among minimizing
factor pairs the chosen `rows` is smallest. -/
theorem ovConfig_spec (s : ℕ) (h2 : 2 ≤ s) (hb : s ≤ 2 ^ 53) :
    ovRows s * ovCols s = s ∧ 1 ≤ ovRows s ∧ ovRows s ≤ s / 2 ∧
      (∀ a b, a * b = s → Nat.dist (ovCols s) (ovRows s) ≤ Nat.dist b a) ∧
      (∀ a b, a * b = s → Nat.dist b a = Nat.dist (ovCols s) (ovRows s) →
        ovRows s ≤ a) := by
  have hinv := ovInv_fold s (s / 2)
  have h1mem : 1 ≤ s / 2 := by omega
  have hd1 : Nat.dist (s / 1) 1 = s - 1 := by
    simp [Nat.dist]; omega
  have hd1lt : Nat.dist (s / 1) 1 < pyMaxsize := by
    rw [hd1]; unfold pyMaxsize
    have : (2 : ℕ) ^ 53 < 2 ^ 63 - 1 := by norm_num
    omega
  rcases hinv with ⟨hd, hr1, hc1, hnone⟩ | ⟨h1, h2', h3, h4, h5, h6, hmin, htie⟩
  · exact absurd ⟨Nat.mod_one s, hd1lt⟩ (hnone 1 (le_refl 1) h1mem)
  · set acc := (List.range' 1 (s / 2)).foldl (ovStep s) (pyMaxsize, 1, 1) with hacc
    have hrows : ovRows s = acc.2.1 := rfl
    have hcols : ovCols s = acc.2.2 := rfl
    have hdvd : acc.2.1 ∣ s := Nat.dvd_of_mod_eq_zero h3
    have hmul : ovRows s * ovCols s = s := by
      rw [hrows, hcols, h4]
      exact Nat.mul_div_cancel' hdvd
    refine ⟨hmul, by rw [hrows]; exact h1, by rw [hrows]; exact h2', ?_, ?_⟩
    · intro a b hab
      have ha0 : 1 ≤ a := by
        rcases Nat.eq_zero_or_pos a with h | h
        · subst h; simp at hab; omega
        · exact h
      have hbdiv : b = s / a := by
        rw [← hab, Nat.mul_div_cancel_left b (by omega : 0 < a)]
      have hamod : s % a = 0 := by
        apply Nat.mod_eq_zero_of_dvd
        exact ⟨b, hab.symm⟩
      have hconf : Nat.dist (ovCols s) (ovRows s) = acc.1 := by
        rw [hrows, hcols, h4, h5]
      rcases le_or_lt a (s / 2) with hle | hgt
      · rw [hconf, hbdiv]
        exact hmin a ha0 hle hamod
      · -- a divides s and a > s/2, so a = s and b = 1
        have has : a = s := by
          rcases (Nat.dvd_of_mod_eq_zero hamod) with ⟨k, hk⟩
          rcases Nat.lt_or_ge k 2 with hk2 | hk2
          · interval_cases k <;> omega
          · exfalso
            have : a * 2 ≤ a * k := Nat.mul_le_mul_left a hk2
            have : a ≤ s / 2 := by omega
            omega
        have hb1 : b = 1 :=
          Nat.eq_of_mul_eq_mul_left (show 0 < s by omega)
            (by rw [Nat.mul_one]; exact has ▸ hab)
        rw [hconf, has, hb1]
        have hds : Nat.dist 1 s = s - 1 := by simp [Nat.dist]; omega
        rw [hds, ← hd1]
        exact hmin 1 (le_refl 1) h1mem (Nat.mod_one s)
    · intro a b hab hdist
      have ha0 : 1 ≤ a := by
        rcases Nat.eq_zero_or_pos a with h | h
        · subst h; simp at hab; omega
        · exact h
      rcases le_or_lt a (s / 2) with hle | hgt
      · have hbdiv : b = s / a := by
          rw [← hab, Nat.mul_div_cancel_left b (by omega : 0 < a)]
        have hamod : s % a = 0 := by
          apply Nat.mod_eq_zero_of_dvd
          exact ⟨b, hab.symm⟩
        have hconf : Nat.dist (ovCols s) (ovRows s) = acc.1 := by
          rw [hrows, hcols, h4, h5]
        rw [hrows]
        apply htie a ha0 hle hamod
        rw [← hbdiv, hdist, hconf]
      · rw [hrows]
        omega

theorem pyRange_length (stop step : ℕ) :
    (pyRange stop step).length = (stop + step - 1) / step := by
  simp [pyRange]

theorem pyRange_getD (stop step a : ℕ) (h : a < (stop + step - 1) / step) :
    (pyRange stop step).getD a 0 = step * a := by
  have hlen : a < (List.range' 0 ((stop + step - 1) / step) step).length := by
    simpa using h
  have h2 : (List.range' 0 ((stop + step - 1) / step) step)[a] = 0 + step * a :=
    List.getElem_range' ..
  rw [pyRange, List.getD_eq_getElem _ _ hlen, h2]
  omega

theorem ovAxisOv_one (dim ws : ℕ) : ovAxisOv dim ws 1 = 0 := by
  simp [ovAxisOv]

theorem ovAxisR_one (dim ws : ℕ) : ovAxisR dim ws 1 = 0 := by
  simp [ovAxisR]

theorem ovAxisStep_one (dim ws : ℕ) : ovAxisStep dim ws 1 = dim := by
  simp [ovAxisStep]

theorem ovAxisPos_one (dim ws : ℕ) (hdim : 1 ≤ dim) : ovAxisPos dim ws 1 = [0] := by
  unfold ovAxisPos
  rw [ovAxisOv_one, ovAxisStep_one]
  unfold pyRange
  have hq : (dim - 0 + dim - 1) / dim = 1 := by
    apply Nat.div_eq_of_lt_le <;> omega
  rw [hq]
  rfl

theorem ovAxis_core (dim ws k : ℕ) (hk : 2 ≤ k) (h1 : ws ≤ dim) (h2 : dim ≤ ws * k)
    (hr : ovAxisR dim ws k < ovAxisStep dim ws k) :
    ovAxisStep dim ws k + ovAxisOv dim ws k = ws ∧
      dim + ovAxisR dim ws k = ws + (k - 1) * ovAxisStep dim ws k ∧
      (ovAxisPos dim ws k).length = k ∧
      ∀ a, a < k → (ovAxisPos dim ws k).getD a 0 = ovAxisStep dim ws k * a := by
  have hk1 : ¬ k = 1 := by omega
  have hdist : Nat.dist dim (ws * k) = ws * k - dim := by
    rw [Nat.dist]; omega
  have hov : ovAxisOv dim ws k = (ws * k - dim) / (k - 1) := by
    rw [ovAxisOv, if_neg hk1, hdist]
  have hrEq : ovAxisR dim ws k = (ws * k - dim) % (k - 1) := by
    rw [ovAxisR, if_neg hk1, hdist]
  have hstEq : ovAxisStep dim ws k = ws - ovAxisOv dim ws k := by
    rw [ovAxisStep, if_neg hk1]
  have hdm : (k - 1) * ovAxisOv dim ws k + ovAxisR dim ws k = ws * k - dim := by
    rw [hov, hrEq]; exact Nat.div_add_mod _ _
  have hovws : ovAxisOv dim ws k < ws := by
    by_contra hcon
    push_neg at hcon
    have hst0 : ovAxisStep dim ws k = 0 := by rw [hstEq]; omega
    omega
  have e4 : ovAxisStep dim ws k + ovAxisOv dim ws k = ws := by rw [hstEq]; omega
  have e3 : ws * k = ws * (k - 1) + ws := by
    have hh : k - 1 + 1 = k := by omega
    calc ws * k = ws * ((k - 1) + 1) := by rw [hh]
      _ = ws * (k - 1) + ws := by ring
  have e5a : ws * (k - 1) = (ovAxisStep dim ws k + ovAxisOv dim ws k) * (k - 1) := by
    rw [e4]
  have e5b : (ovAxisStep dim ws k + ovAxisOv dim ws k) * (k - 1) =
      ovAxisStep dim ws k * (k - 1) + ovAxisOv dim ws k * (k - 1) :=
    add_mul _ _ _
  have e5 : ws * (k - 1) =
      ovAxisStep dim ws k * (k - 1) + ovAxisOv dim ws k * (k - 1) :=
    e5a.trans e5b
  have e1' : ovAxisOv dim ws k * (k - 1) + ovAxisR dim ws k = ws * k - dim := by
    rw [mul_comm] at hdm; exact hdm
  have egoal : (k - 1) * ovAxisStep dim ws k = ovAxisStep dim ws k * (k - 1) :=
    mul_comm _ _
  have hdimEq : dim + ovAxisR dim ws k = ws + (k - 1) * ovAxisStep dim ws k := by
    omega
  have e6 : k * ovAxisStep dim ws k =
      (k - 1) * ovAxisStep dim ws k + ovAxisStep dim ws k := by
    have hh : k - 1 + 1 = k := by omega
    calc k * ovAxisStep dim ws k = ((k - 1) + 1) * ovAxisStep dim ws k := by rw [hh]
      _ = (k - 1) * ovAxisStep dim ws k + ovAxisStep dim ws k := by ring
  have e7 : (k + 1) * ovAxisStep dim ws k =
      k * ovAxisStep dim ws k + ovAxisStep dim ws k := by ring
  have hcnt : (dim - ovAxisOv dim ws k + ovAxisStep dim ws k - 1) /
      ovAxisStep dim ws k = k := by
    apply Nat.div_eq_of_lt_le <;> omega
  refine ⟨e4, hdimEq, ?_, ?_⟩
  · unfold ovAxisPos
    rw [pyRange_length, hcnt]
  · intro a ha
    unfold ovAxisPos
    apply pyRange_getD
    omega

theorem ovAxis_window (dim ws k a : ℕ) (hk : 2 ≤ k) (h1 : ws ≤ dim)
    (h2 : dim ≤ ws * k) (hr : ovAxisR dim ws k < ovAxisStep dim ws k)
    (ha : a < k) :
    (a < k - 1 →
      ovAxisD dim ws k (ovAxisStep dim ws k * a) = 0 ∧
        ovAxisStep dim ws k * a + ws ≤ dim) ∧
    (a = k - 1 →
      ovAxisD dim ws k (ovAxisStep dim ws k * a) = ovAxisR dim ws k ∧
        dim ≤ ovAxisStep dim ws k * a + ws ∧
        dim + ovAxisR dim ws k = ovAxisStep dim ws k * a + ws ∧
        ovAxisR dim ws k ≤ ovAxisStep dim ws k * a) := by
  obtain ⟨e4, hdim, hlen, hget⟩ := ovAxis_core dim ws k hk h1 h2 hr
  have hcm : (k - 1) * ovAxisStep dim ws k = ovAxisStep dim ws k * (k - 1) :=
    mul_comm _ _
  have m2 : ovAxisStep dim ws k * (k - 2) + ovAxisStep dim ws k =
      ovAxisStep dim ws k * (k - 1) := by
    have hh : k - 2 + 1 = k - 1 := by omega
    calc ovAxisStep dim ws k * (k - 2) + ovAxisStep dim ws k
        = ovAxisStep dim ws k * ((k - 2) + 1) := by ring
      _ = ovAxisStep dim ws k * (k - 1) := by rw [hh]
  have m4 : ovAxisStep dim ws k * 1 ≤ ovAxisStep dim ws k * (k - 1) :=
    Nat.mul_le_mul_left _ (by omega)
  constructor
  · intro halt
    have m1 : ovAxisStep dim ws k * a ≤ ovAxisStep dim ws k * (k - 2) :=
      Nat.mul_le_mul_left _ (by omega)
    have hlt : ovAxisStep dim ws k * a + ws < dim := by omega
    refine ⟨?_, by omega⟩
    rw [ovAxisD, if_pos hlt]
  · intro haeq
    subst haeq
    have hge : ¬ ovAxisStep dim ws k * (k - 1) + ws < dim := by omega
    refine ⟨by rw [ovAxisD, if_neg hge], by omega, by omega, by omega⟩

theorem ovAxis_slicesOk_two (dim ws k : ℕ) (hk : 2 ≤ k) (h1 : ws ≤ dim)
    (h2 : dim ≤ ws * k) (hr : ovAxisR dim ws k < ovAxisStep dim ws k) :
    ovAxisSlicesOk dim ws k = true := by
  obtain ⟨e4, hdim, hlen, hget⟩ := ovAxis_core dim ws k hk h1 h2 hr
  rw [ovAxisSlicesOk, Bool.and_eq_true]
  constructor
  · simp only [decide_eq_true_eq]
    omega
  · rw [List.all_eq_true]
    intro i hi
    obtain ⟨a, halen, hia⟩ := List.mem_iff_getElem.1 hi
    have ha : a < k := by omega
    have hival : i = ovAxisStep dim ws k * a := by
      rw [← hia, ← List.getD_eq_getElem _ 0 halen]
      exact hget a ha
    obtain ⟨hwlt, hweq⟩ := ovAxis_window dim ws k a hk h1 h2 hr ha
    rw [Bool.and_eq_true]
    subst hival
    rcases Nat.lt_or_ge a (k - 1) with hc | hc
    · obtain ⟨hd0, hle⟩ := hwlt hc
      constructor
      · simp only [decide_eq_true_eq, hd0]
        omega
      · simp only [decide_eq_true_eq, ovAxisStart, hd0]
        omega
    · have haeq : a = k - 1 := by omega
      obtain ⟨hdr, hge, hsum, hrle⟩ := hweq haeq
      constructor
      · simp only [decide_eq_true_eq, hdr]
        exact hrle
      · simp only [decide_eq_true_eq, ovAxisStart, hdr]
        omega

theorem ovAxis_slicesOk_one (dim ws : ℕ) (hws : 1 ≤ ws) (h1 : ws ≤ dim) :
    ovAxisSlicesOk dim ws 1 = true := by
  rw [ovAxisSlicesOk, Bool.and_eq_true]
  constructor
  · simp only [decide_eq_true_eq, ovAxisStep_one]
    omega
  · rw [List.all_eq_true]
    intro i hi
    rw [ovAxisPos_one dim ws (by omega)] at hi
    simp only [List.mem_singleton] at hi
    subst hi
    rw [Bool.and_eq_true]
    constructor
    · simp [ovAxisD, ovAxisR_one]
    · simp only [decide_eq_true_eq, ovAxisStart, ovAxisD, ovAxisR_one]
      rcases Nat.lt_or_ge (0 + ws) dim with hc | hc <;> simp [hc] <;> omega

theorem ovAxis_cover_two (dim ws k y : ℕ) (hk : 2 ≤ k) (h1 : ws ≤ dim)
    (h2 : dim ≤ ws * k) (hr : ovAxisR dim ws k < ovAxisStep dim ws k)
    (hy : y < dim) :
    ∃ a, a < (ovAxisPos dim ws k).length ∧
      OvHit dim ws k ((ovAxisPos dim ws k).getD a 0) y := by
  obtain ⟨e4, hdim, hlen, hget⟩ := ovAxis_core dim ws k hk h1 h2 hr
  have hst : 0 < ovAxisStep dim ws k := by omega
  have hcm : (k - 1) * ovAxisStep dim ws k = ovAxisStep dim ws k * (k - 1) :=
    mul_comm _ _
  rcases Nat.lt_or_ge y (ovAxisStep dim ws k * (k - 1)) with hc | hc
  · -- interior tile a = y / step
    refine ⟨y / ovAxisStep dim ws k, ?_, ?_⟩
    · rw [hlen]
      calc y / ovAxisStep dim ws k
          < k - 1 := by
            rw [Nat.div_lt_iff_lt_mul hst]
            calc y < ovAxisStep dim ws k * (k - 1) := hc
              _ = (k - 1) * ovAxisStep dim ws k := mul_comm _ _
        _ ≤ k := by omega
    · have halt : y / ovAxisStep dim ws k < k - 1 := by
        rw [Nat.div_lt_iff_lt_mul hst]
        calc y < ovAxisStep dim ws k * (k - 1) := hc
          _ = (k - 1) * ovAxisStep dim ws k := mul_comm _ _
      have ha : y / ovAxisStep dim ws k < k := by omega
      rw [hget _ ha]
      obtain ⟨hwlt, _⟩ := ovAxis_window dim ws k (y / ovAxisStep dim ws k)
        hk h1 h2 hr ha
      obtain ⟨hd0, hle⟩ := hwlt halt
      have hlo : ovAxisStep dim ws k * (y / ovAxisStep dim ws k) ≤ y := by
        calc ovAxisStep dim ws k * (y / ovAxisStep dim ws k)
            = y / ovAxisStep dim ws k * ovAxisStep dim ws k := mul_comm _ _
          _ ≤ y := Nat.div_mul_le_self y _
      have hdm := Nat.div_add_mod y (ovAxisStep dim ws k)
      have hmlt := Nat.mod_lt y hst
      constructor
      · rw [ovAxisStart, hd0]
        omega
      · have hhi : y < ovAxisStep dim ws k * (y / ovAxisStep dim ws k) + ws := by
          omega
        omega
  · -- last tile a = k - 1
    refine ⟨k - 1, by omega, ?_⟩
    have ha : k - 1 < k := by omega
    rw [hget _ ha]
    obtain ⟨_, hweq⟩ := ovAxis_window dim ws k (k - 1) hk h1 h2 hr ha
    obtain ⟨hdr, hge, hsum, hrle⟩ := hweq rfl
    constructor
    · rw [ovAxisStart, hdr]
      omega
    · omega

theorem ovAxis_cover_one (dim ws y : ℕ) (hws : 1 ≤ ws) (heq : dim = ws)
    (hy : y < dim) :
    ∃ a, a < (ovAxisPos dim ws 1).length ∧
      OvHit dim ws 1 ((ovAxisPos dim ws 1).getD a 0) y := by
  refine ⟨0, ?_, ?_⟩
  · rw [ovAxisPos_one dim ws (by omega)]
    simp
  · rw [ovAxisPos_one dim ws (by omega)]
    simp only [List.getD]
    constructor
    · simp [ovAxisStart, ovAxisD, ovAxisR_one]
    · omega

theorem overlapCount_pos (os1 os0 ws s y x : ℕ)
    (hY : ∃ a, a < (ovAxisPos os1 ws (ovRows s)).length ∧
      OvHit os1 ws (ovRows s) ((ovAxisPos os1 ws (ovRows s)).getD a 0) y)
    (hX : ∃ b, b < (ovAxisPos os0 ws (ovCols s)).length ∧
      OvHit os0 ws (ovCols s) ((ovAxisPos os0 ws (ovCols s)).getD b 0) x) :
    1 ≤ overlapCount os1 os0 ws s y x := by
  obtain ⟨a, ha, hAY⟩ := hY
  obtain ⟨b, hb, hBX⟩ := hX
  unfold overlapCount
  by_contra hcon
  push_neg at hcon
  have hsum0 : (∑ a' ∈ Finset.range (ovAxisPos os1 ws (ovRows s)).length,
      ∑ b' ∈ Finset.range (ovAxisPos os0 ws (ovCols s)).length,
        if OvHit os1 ws (ovRows s) ((ovAxisPos os1 ws (ovRows s)).getD a' 0) y ∧
            OvHit os0 ws (ovCols s) ((ovAxisPos os0 ws (ovCols s)).getD b' 0) x
          then 1 else 0) = 0 := by omega
  rw [Finset.sum_eq_zero_iff] at hsum0
  have hA := hsum0 a (Finset.mem_range.2 ha)
  rw [Finset.sum_eq_zero_iff] at hA
  have hB := hA b (Finset.mem_range.2 hb)
  rw [if_pos ⟨hAY, hBX⟩] at hB
  exact one_ne_zero hB

theorem length_flatMap_uniform {α γ : Type} (g : α → List γ) (m : ℕ)
    (hm : ∀ u, (g u).length = m) (l : List α) :
    (l.flatMap g).length = l.length * m := by
  induction l with
  | nil => simp
  | cons u t ih =>
    simp only [List.flatMap_cons, List.length_append, List.length_cons, ih, hm u]
    ring

theorem getD_flatMap_uniform {α γ : Type} (g : α → List γ) (m : ℕ)
    (hm : ∀ u, (g u).length = m) (l : List α) (a b : ℕ) (dA : α) (d : γ)
    (ha : a < l.length) (hb : b < m) :
    (l.flatMap g).getD (a * m + b) d = (g (l.getD a dA)).getD b d := by
  induction l generalizing a with
  | nil => simp at ha
  | cons u t ih =>
    rcases a with _ | a
    · simp only [List.flatMap_cons, Nat.zero_mul, Nat.zero_add, List.getD_cons_zero]
      exact List.getD_append _ _ _ b (by rw [hm u]; exact hb)
    · simp only [List.flatMap_cons, List.getD_cons_succ]
      have hidx : (a + 1) * m + b = (g u).length + (a * m + b) := by
        rw [hm u]; ring
      rw [hidx, List.getD_append_right _ _ _ _ (Nat.le_add_right _ _)]
      simp only [Nat.add_sub_cancel_left]
      exact ih a (by simpa using ha)

theorem getD_map_fn {α γ : Type} (f : α → γ) (l : List α) (b : ℕ) (dA : α)
    (d : γ) (hb : b < l.length) :
    (l.map f).getD b d = f (l.getD b dA) := by
  have hb' : b < (l.map f).length := by simpa using hb
  rw [List.getD_eq_getElem _ _ hb', List.getD_eq_getElem _ _ hb]
  exact List.getElem_map ..

theorem cropWithOverlapList_length (N H W : ℕ) (data : ℕ → ℕ → ℕ → ℕ → ℚ)
    (ws s : ℕ) :
    (cropWithOverlapList N H W data ws s).length =
      N * ((ovAxisStarts H ws (ovRows s)).length *
        (ovAxisStarts W ws (ovCols s)).length) := by
  unfold cropWithOverlapList
  rw [length_flatMap_uniform _ ((ovAxisStarts H ws (ovRows s)).length *
      (ovAxisStarts W ws (ovCols s)).length) ?huni]
  · simp
  case huni =>
    intro k
    rw [length_flatMap_uniform _ (ovAxisStarts W ws (ovCols s)).length ?hin]
    case hin => intro sy; simp

theorem crop_tile_eq (N H W : ℕ) (data : ℕ → ℕ → ℕ → ℕ → ℚ) (ws s k a b : ℕ)
    (hk : k < N) (ha : a < (ovAxisStarts H ws (ovRows s)).length)
    (hb : b < (ovAxisStarts W ws (ovCols s)).length) (y x c : ℕ) :
    crop_data_with_overlap N H W data ws s
        (k * ((ovAxisStarts H ws (ovRows s)).length *
            (ovAxisStarts W ws (ovCols s)).length) +
          (a * (ovAxisStarts W ws (ovCols s)).length + b)) y x c =
      data k ((ovAxisStarts H ws (ovRows s)).getD a 0 + y)
        ((ovAxisStarts W ws (ovCols s)).getD b 0 + x) c := by
  unfold crop_data_with_overlap cropWithOverlapList
  have hinner : b < (ovAxisStarts W ws (ovCols s)).length := hb
  have hmid : a * (ovAxisStarts W ws (ovCols s)).length + b <
      (ovAxisStarts H ws (ovRows s)).length *
        (ovAxisStarts W ws (ovCols s)).length := by
    have h1 : a + 1 ≤ (ovAxisStarts H ws (ovRows s)).length := ha
    have h2 : (a + 1) * (ovAxisStarts W ws (ovCols s)).length ≤
        (ovAxisStarts H ws (ovRows s)).length *
          (ovAxisStarts W ws (ovCols s)).length :=
      Nat.mul_le_mul_right _ h1
    have h3 : (a + 1) * (ovAxisStarts W ws (ovCols s)).length =
        a * (ovAxisStarts W ws (ovCols s)).length +
          (ovAxisStarts W ws (ovCols s)).length := by ring
    omega
  rw [getD_flatMap_uniform _ ((ovAxisStarts H ws (ovRows s)).length *
      (ovAxisStarts W ws (ovCols s)).length) ?houter _ k
      (a * (ovAxisStarts W ws (ovCols s)).length + b) 0 _ (by simpa using hk) hmid]
  case houter =>
    intro u
    rw [length_flatMap_uniform _ (ovAxisStarts W ws (ovCols s)).length ?hin2]
    case hin2 => intro sy; simp
  rw [getD_flatMap_uniform _ (ovAxisStarts W ws (ovCols s)).length ?hin3 _ a b 0 _
      ha hb]
  case hin3 => intro sy; simp
  rw [getD_map_fn _ _ _ 0 _ hb]
  have hkval : (List.range N).getD k 0 = k := by
    rw [List.getD_eq_getElem _ _ (by simpa using hk)]
    exact List.getElem_range ..
  rw [hkval]

theorem crop_tile_eq_pos (N H W : ℕ) (data : ℕ → ℕ → ℕ → ℕ → ℚ) (ws s k a b : ℕ)
    (hk : k < N) (ha : a < (ovAxisPos H ws (ovRows s)).length)
    (hb : b < (ovAxisPos W ws (ovCols s)).length) (y x c : ℕ) :
    crop_data_with_overlap N H W data ws s
        (k * ((ovAxisPos H ws (ovRows s)).length *
            (ovAxisPos W ws (ovCols s)).length) +
          a * (ovAxisPos W ws (ovCols s)).length + b) y x c =
      data k
        (ovAxisStart H ws (ovRows s) ((ovAxisPos H ws (ovRows s)).getD a 0) + y)
        (ovAxisStart W ws (ovCols s) ((ovAxisPos W ws (ovCols s)).getD b 0) + x)
        c := by
  have hLY : (ovAxisStarts H ws (ovRows s)).length =
      (ovAxisPos H ws (ovRows s)).length := by
    unfold ovAxisStarts
    exact List.length_map ..
  have hLX : (ovAxisStarts W ws (ovCols s)).length =
      (ovAxisPos W ws (ovCols s)).length := by
    unfold ovAxisStarts
    exact List.length_map ..
  have hidx : k * ((ovAxisPos H ws (ovRows s)).length *
        (ovAxisPos W ws (ovCols s)).length) +
        a * (ovAxisPos W ws (ovCols s)).length + b =
      k * ((ovAxisStarts H ws (ovRows s)).length *
          (ovAxisStarts W ws (ovCols s)).length) +
        (a * (ovAxisStarts W ws (ovCols s)).length + b) := by
    rw [hLY, hLX]; ring
  rw [hidx, crop_tile_eq N H W data ws s k a b hk (by rwa [hLY]) (by rwa [hLX])]
  have hgy : (ovAxisStarts H ws (ovRows s)).getD a 0 =
      ovAxisStart H ws (ovRows s) ((ovAxisPos H ws (ovRows s)).getD a 0) := by
    unfold ovAxisStarts
    exact getD_map_fn _ _ _ 0 _ ha
  have hgx : (ovAxisStarts W ws (ovCols s)).getD b 0 =
      ovAxisStart W ws (ovCols s) ((ovAxisPos W ws (ovCols s)).getD b 0) := by
    unfold ovAxisStarts
    exact getD_map_fn _ _ _ 0 _ hb
  rw [hgy, hgx]

theorem merge_crop_pixel (N H W : ℕ) (data : ℕ → ℕ → ℕ → ℕ → ℚ) (ws s k y x c : ℕ)
    (hk : k < N) (hcnt : 1 ≤ overlapCount H W ws s y x) :
    merge_data_with_overlap (crop_data_with_overlap N H W data ws s)
        H W ws s k y x c = data k y x c := by
  have hcast : ((overlapCount H W ws s y x : ℕ) : ℚ) =
      ∑ a ∈ Finset.range (ovAxisPos H ws (ovRows s)).length,
        ∑ b ∈ Finset.range (ovAxisPos W ws (ovCols s)).length,
          if OvHit H ws (ovRows s) ((ovAxisPos H ws (ovRows s)).getD a 0) y ∧
              OvHit W ws (ovCols s) ((ovAxisPos W ws (ovCols s)).getD b 0) x
            then (1 : ℚ) else 0 := by
    unfold overlapCount
    push_cast
    rfl
  have haccum : mergeAccum (crop_data_with_overlap N H W data ws s)
      H W ws s k y x c = data k y x c * ((overlapCount H W ws s y x : ℕ) : ℚ) := by
    unfold mergeAccum
    calc (∑ a ∈ Finset.range (ovAxisPos H ws (ovRows s)).length,
        ∑ b ∈ Finset.range (ovAxisPos W ws (ovCols s)).length,
          if OvHit H ws (ovRows s) ((ovAxisPos H ws (ovRows s)).getD a 0) y ∧
              OvHit W ws (ovCols s) ((ovAxisPos W ws (ovCols s)).getD b 0) x
            then
              crop_data_with_overlap N H W data ws s
                (k * ((ovAxisPos H ws (ovRows s)).length *
                    (ovAxisPos W ws (ovCols s)).length) +
                  a * (ovAxisPos W ws (ovCols s)).length + b)
                (y - ovAxisStart H ws (ovRows s)
                      ((ovAxisPos H ws (ovRows s)).getD a 0))
                (x - ovAxisStart W ws (ovCols s)
                      ((ovAxisPos W ws (ovCols s)).getD b 0)) c
            else 0)
        = ∑ a ∈ Finset.range (ovAxisPos H ws (ovRows s)).length,
            ∑ b ∈ Finset.range (ovAxisPos W ws (ovCols s)).length,
              data k y x c *
                (if OvHit H ws (ovRows s) ((ovAxisPos H ws (ovRows s)).getD a 0) y ∧
                    OvHit W ws (ovCols s) ((ovAxisPos W ws (ovCols s)).getD b 0) x
                  then (1 : ℚ) else 0) := by
          apply Finset.sum_congr rfl
          intro a ha
          apply Finset.sum_congr rfl
          intro b hb
          rw [Finset.mem_range] at ha hb
          by_cases hP : OvHit H ws (ovRows s) ((ovAxisPos H ws (ovRows s)).getD a 0) y ∧
              OvHit W ws (ovCols s) ((ovAxisPos W ws (ovCols s)).getD b 0) x
          · rw [if_pos hP, if_pos hP, mul_one,
              crop_tile_eq_pos N H W data ws s k a b hk ha hb,
              Nat.add_sub_cancel' hP.1.1, Nat.add_sub_cancel' hP.2.1]
          · rw [if_neg hP, if_neg hP, mul_zero]
      _ = data k y x c * ((overlapCount H W ws s y x : ℕ) : ℚ) := by
          rw [hcast]
          simp only [← Finset.mul_sum]
  unfold merge_data_with_overlap
  rw [haccum]
  have hne : ((overlapCount H W ws s y x : ℕ) : ℚ) ≠ 0 := by
    exact_mod_cast (by omega : (overlapCount H W ws s y x : ℕ) ≠ 0)
  exact mul_div_cancel_right₀ _ hne


theorem ovCropAssertsOk_spec (H W ws s : ℕ) (h : ovCropAssertsOk H W ws s = true) :
    (s % 2 = 0 ∨ s = 1) ∧ ws ≤ H ∧ ws ≤ W ∧
      (s ≠ 1 → H ≤ ws * ovRows s ∧ W ≤ ws * ovCols s) := by
  rw [ovCropAssertsOk] at h
  simp only [Bool.and_eq_true, Bool.or_eq_true, decide_eq_true_eq] at h
  tauto

theorem ovWellFormed_spec (H W ws s : ℕ) (h : ovWellFormed H W ws s = true) :
    ovAxisR H ws (ovRows s) < ovAxisStep H ws (ovRows s) ∧
      ovAxisR W ws (ovCols s) < ovAxisStep W ws (ovCols s) := by
  rw [ovWellFormed] at h
  simp only [Bool.and_eq_true, decide_eq_true_eq] at h
  exact h

theorem ovCols_pos (s : ℕ) (h2 : 2 ≤ s) (hb : s ≤ 2 ^ 53) : 1 ≤ ovCols s := by
  obtain ⟨hm, h1, _, _, _⟩ := ovConfig_spec s h2 hb
  rcases Nat.eq_zero_or_pos (ovCols s) with h | h
  · rw [h, Nat.mul_zero] at hm
    omega
  · exact h

theorem ovAxisPos_length_all (dim ws k : ℕ) (hk : 1 ≤ k) (hws : 1 ≤ ws)
    (h1 : ws ≤ dim) (h2 : 2 ≤ k → dim ≤ ws * k)
    (hr : ovAxisR dim ws k < ovAxisStep dim ws k) :
    (ovAxisPos dim ws k).length = k := by
  rcases Nat.lt_or_ge k 2 with hc | hc
  · have hk1 : k = 1 := by omega
    subst hk1
    rw [ovAxisPos_one dim ws (by omega)]
    rfl
  · exact (ovAxis_core dim ws k hc h1 (h2 hc) hr).2.2.1

theorem ovAxis_slicesOk_all (dim ws k : ℕ) (hk : 1 ≤ k) (hws : 1 ≤ ws)
    (h1 : ws ≤ dim) (h2 : 2 ≤ k → dim ≤ ws * k)
    (hr : ovAxisR dim ws k < ovAxisStep dim ws k) :
    ovAxisSlicesOk dim ws k = true := by
  rcases Nat.lt_or_ge k 2 with hc | hc
  · have hk1 : k = 1 := by omega
    subst hk1
    exact ovAxis_slicesOk_one dim ws hws h1
  · exact ovAxis_slicesOk_two dim ws k hc h1 (h2 hc) hr

theorem ovAxis_cover_all (dim ws k y : ℕ) (hk : 1 ≤ k) (hws : 1 ≤ ws)
    (h1 : ws ≤ dim) (h2 : dim ≤ ws * k)
    (hr : ovAxisR dim ws k < ovAxisStep dim ws k) (hy : y < dim) :
    ∃ a, a < (ovAxisPos dim ws k).length ∧
      OvHit dim ws k ((ovAxisPos dim ws k).getD a 0) y := by
  rcases Nat.lt_or_ge k 2 with hc | hc
  · have hk1 : k = 1 := by omega
    subst hk1
    have heq : dim = ws := by
      rw [Nat.mul_one] at h2
      omega
    exact ovAxis_cover_one dim ws y hws heq hy
  · exact ovAxis_cover_two dim ws k y hc h1 h2 hr hy

theorem crop_data_hnum_bounds (H t : ℕ) (ht : 1 ≤ t) :
    H ≤ crop_data_hnum H t * t ∧ crop_data_hnum H t * t < H + t := by
  unfold crop_data_hnum
  have hdm := Nat.div_add_mod H t
  have hmlt : H % t < t := Nat.mod_lt H (by omega)
  have hc1 : (H / t + 1) * t = H / t * t + t := by ring
  have hcm : H / t * t = t * (H / t) := mul_comm _ _
  rcases Nat.eq_zero_or_pos (H % t) with h0 | hpos
  · rw [h0]
    have hif : (if (0 : ℕ) > 0 then (1 : ℕ) else 0) = 0 := by norm_num
    rw [hif, Nat.add_zero]
    omega
  · have hif : (if H % t > 0 then (1 : ℕ) else 0) = 1 := if_pos hpos
    rw [hif, hc1]
    omega

theorem ceil_div_char (H t q : ℕ) (ht : 1 ≤ t) (hlo : H ≤ q * t)
    (hhi : q * t < H + t) : q = (H + t - 1) / t := by
  symm
  apply Nat.div_eq_of_lt_le
  · have : q * t = t * q := mul_comm _ _
    omega
  · have h2 : (q + 1) * t = q * t + t := by ring
    have h3 : t * (q + 1) = (q + 1) * t := mul_comm _ _
    omega

/-- C4: for every even `subdivision` with `2 ≤ subdivision ≤ 2^53` (the bound
under which Python's float `subdivision/i` is exact), the `(rows, columns)`
pair chosen by the search loop of `crop_data_with_overlap` — and recomputed
by the line-identical loop of `merge_data_with_overlap` — satisfies
`rows * columns = subdivision` with `rows ∈ [1, subdivision/2]`, no factor
pair of `subdivision` has a strictly smaller `|columns - rows|`, and among
minimising factor pairs the one with the smallest `rows` is chosen. -/
theorem overlap_factorization (s : ℕ) (heven : s % 2 = 0) (h2 : 2 ≤ s)
    (hb : s ≤ 2 ^ 53) :
    ovRows s * ovCols s = s ∧ 1 ≤ ovRows s ∧ ovRows s ≤ s / 2 ∧
      (∀ a b, a * b = s → Nat.dist (ovCols s) (ovRows s) ≤ Nat.dist b a) ∧
      (∀ a b, a * b = s → Nat.dist b a = Nat.dist (ovCols s) (ovRows s) →
        ovRows s ≤ a) ∧
      findMinOverlapConfig s = findMinOverlapConfigMerge s := by
  obtain ⟨hm, h1, h2', hmin, htie⟩ := ovConfig_spec s h2 hb
  exact ⟨hm, h1, h2', hmin, htie, rfl⟩

/-- Witness for C4 at `subdivision = 12`: the hypotheses hold and the search
yields the balanced pair `(3, 4)`. -/
theorem overlap_factorization_witness :
    12 % 2 = 0 ∧ 2 ≤ 12 ∧ 12 ≤ 2 ^ 53 ∧ ovRows 12 * ovCols 12 = 12 ∧
      ovRows 12 = 3 ∧ ovCols 12 = 4 :=
  ⟨by decide, by decide, by decide,
    (overlap_factorization 12 (by decide) (by decide) (by decide)).1,
    by decide, by decide⟩

/-- C2 (amended): under the Overlap Tiler's asserted preconditions the
per-pixel overlap-count matrix of `merge_data_with_overlap` is everywhere at
least 1 — so the final `np.true_divide` never divides by zero — provided
additionally that the geometry is well-formed: for `subdivision = 1` the
window must cover the whole image (`window_size = H = W`; the code's asserts
allow `window_size < H` there, and then the single `window_size²` tile
leaves every other pixel with count 0), and for even `subdivision ≥ 2` each
axis's remainder must be smaller than its step (`ovWellFormed`; otherwise
the loop skips positions, leaves trailing pixels uncovered, and the merge
loop's slice assignment raises).  The counterexample
`overlap_full_coverage_cex` shows the claim fails as stated. -/
theorem overlap_full_coverage :
    (∀ H W ws y x, 1 ≤ ws → H = ws → W = ws → y < H → x < W →
        1 ≤ overlapCount H W ws 1 y x ∧
          ((overlapCount H W ws 1 y x : ℕ) : ℚ) ≠ 0) ∧
    (∀ H W ws s y x, 1 ≤ ws → 2 ≤ s → s ≤ 2 ^ 53 →
        ovCropAssertsOk H W ws s = true → ovWellFormed H W ws s = true →
        y < H → x < W →
        1 ≤ overlapCount H W ws s y x ∧
          ((overlapCount H W ws s y x : ℕ) : ℚ) ≠ 0) := by
  have hq : ∀ n : ℕ, 1 ≤ n → ((n : ℕ) : ℚ) ≠ 0 := fun n hn => by
    exact_mod_cast (by omega : n ≠ 0)
  constructor
  · intro H W ws y x hws hH hW hy hx
    have hcnt := overlapCount_pos H W ws 1 y x
      (ovAxis_cover_one H ws y hws hH hy) (ovAxis_cover_one W ws x hws hW hx)
    exact ⟨hcnt, hq _ hcnt⟩
  · intro H W ws s y x hws h2 hb hassert hwf hy hx
    obtain ⟨hpar, hwsH, hwsW, hcov⟩ := ovCropAssertsOk_spec H W ws s hassert
    obtain ⟨hH2, hW2⟩ := hcov (by omega)
    obtain ⟨hrY, hrX⟩ := ovWellFormed_spec H W ws s hwf
    obtain ⟨hm, hrows1, _, _, _⟩ := ovConfig_spec s h2 hb
    have hcols1 : 1 ≤ ovCols s := ovCols_pos s h2 hb
    have hcnt := overlapCount_pos H W ws s y x
      (ovAxis_cover_all H ws (ovRows s) y hrows1 hws hwsH hH2 hrY hy)
      (ovAxis_cover_all W ws (ovCols s) x hcols1 hws hwsW hW2 hrX hx)
    exact ⟨hcnt, hq _ hcnt⟩

/-- Counterexample to C2 as stated: `original_shape = (2, 2)`,
`window_size = 1`, `subdivision = 1` satisfies every stated precondition
(`subdivision` is 1, `window_size ≤ H, W`; the `rows*window_size` asserts
only apply for `subdivision ≠ 1`), yet the single `1 × 1` tile covers only
pixel `(0, 0)`: the overlap count at pixel `(1, 1)` is 0 and
`np.true_divide` divides 0 by 0 there (NaN). -/
theorem overlap_full_coverage_cex :
    ovCropAssertsOk 2 2 1 1 = true ∧ overlapCount 2 2 1 1 1 1 = 0 := by
  decide

/-- Witness for C2: both branches at concrete well-formed configurations. -/
theorem overlap_full_coverage_witness :
    1 ≤ overlapCount 1 1 1 1 0 0 ∧ 1 ≤ overlapCount 6 6 4 4 0 0 :=
  ⟨(overlap_full_coverage.1 1 1 1 0 0 (by decide) rfl rfl (by decide)
      (by decide)).1,
    (overlap_full_coverage.2 6 6 4 4 0 0 (by decide) (by decide) (by decide)
      (by decide) (by decide) (by decide) (by decide)).1⟩

/-- C1 (amended): the tiling/merging round-trip.  For `subdivision = 1` the
round-trip `merge(crop(V)) = V` holds when `H = W = window_size` (the claim's
"`H, W` multiples of `window_size`" fails: with `H = 2·window_size` the
single crop covers only the top-left window and every other pixel of the
merge output is 0/0 — see `tiling_merging_roundtrip_cex`).  For even
`subdivision ≥ 2`, at every pixel whose overlap count is ≥ 1 the merged
value equals the original value exactly — for count 1 this is the sole
covering tile's value, for count > 1 it is the exact average of the
overlapping tile values, all of which are windows of `V` and hence equal
`V` at that pixel.  The `ovAxisSlicesOk` hypotheses state that the crop and
merge loops run without raising (every slice has extent `window_size`);
`merge_data_with_overlap` is applied with `original_shape[1] = H`,
`original_shape[0] = W` as in the source. -/
theorem tiling_merging_roundtrip :
    (∀ N H W (data : ℕ → ℕ → ℕ → ℕ → ℚ) ws k y x c, 1 ≤ ws → H = ws →
        W = ws → k < N → y < H → x < W →
        merge_data_with_overlap (crop_data_with_overlap N H W data ws 1)
          H W ws 1 k y x c = data k y x c) ∧
    (∀ N H W (data : ℕ → ℕ → ℕ → ℕ → ℚ) ws s k y x c, 2 ≤ s →
        ovCropAssertsOk H W ws s = true →
        ovAxisSlicesOk H ws (ovRows s) = true →
        ovAxisSlicesOk W ws (ovCols s) = true → k < N →
        1 ≤ overlapCount H W ws s y x →
        merge_data_with_overlap (crop_data_with_overlap N H W data ws s)
          H W ws s k y x c = data k y x c) := by
  constructor
  · intro N H W data ws k y x c hws hH hW hk hy hx
    exact merge_crop_pixel N H W data ws 1 k y x c hk
      (overlapCount_pos H W ws 1 y x (ovAxis_cover_one H ws y hws hH hy)
        (ovAxis_cover_one W ws x hws hW hx))
  · intro N H W data ws s k y x c h2 hassert hok1 hok2 hk hcnt
    exact merge_crop_pixel N H W data ws s k y x c hk hcnt

/-- Counterexample to C1 as stated: `H = W = 2` are multiples of
`window_size = 1` and `subdivision = 1`, but the single `1 × 1` crop covers
only pixel `(0, 0)`; at pixel `(1, 1)` the merge output is `0/0` (NaN in
numpy, 0 in this embedding — either way not the original value 4). -/
theorem tiling_merging_roundtrip_cex :
    2 % 1 = 0 ∧
      merge_data_with_overlap (crop_data_with_overlap 1 2 2 cexVol1 1 1)
        2 2 1 1 0 1 1 0 ≠ cexVol1 0 1 1 0 := by
  refine ⟨by decide, ?_⟩
  have hcnt : overlapCount 2 2 1 1 1 1 = 0 := by decide
  have hL1 : (ovAxisPos 2 1 (ovRows 1)).length = 1 := by decide
  have hL2 : (ovAxisPos 2 1 (ovCols 1)).length = 1 := by decide
  have hacc : mergeAccum (crop_data_with_overlap 1 2 2 cexVol1 1 1)
      2 2 1 1 0 1 1 0 = 0 := by
    unfold mergeAccum
    rw [hL1, hL2, Finset.sum_range_one, Finset.sum_range_one,
      if_neg (by decide)]
  unfold merge_data_with_overlap
  rw [hacc, hcnt]
  norm_num [cexVol1]

/-- Witness for C1: the `subdivision = 1` branch at a `1 × 1` volume and the
overlap branch at the spec's `6 × 6`, `window_size = 4`, `subdivision = 4`
scenario (pixel `(3, 3)` has overlap count 4 and merges back exactly). -/
theorem tiling_merging_roundtrip_witness :
    merge_data_with_overlap
        (crop_data_with_overlap 1 1 1 (fun _ _ _ _ => 5) 1 1)
        1 1 1 1 0 0 0 0 = 5 ∧
      merge_data_with_overlap
        (crop_data_with_overlap 1 6 6 (fun _ y x _ => y * 10 + x) 4 4)
        6 6 4 4 0 3 3 0 = 33 := by
  constructor
  · exact tiling_merging_roundtrip.1 1 1 1 (fun _ _ _ _ => 5) 1 0 0 0 0
      (by decide) rfl rfl (by decide) (by decide) (by decide)
  · have h := tiling_merging_roundtrip.2 1 6 6
      (fun _ y x _ => (y * 10 + x : ℚ)) 4 4 0 3 3 0 (by decide) (by decide)
      (by decide) (by decide) (by decide) (by decide)
    rw [h]
    norm_num

/-- C5 (amended): under the asserted preconditions and additionally a
well-formed geometry (`ovWellFormed`: each axis's remainder below its step —
without it the loop generates fewer positions and its last slice has the
wrong extent, so the assignment raises, see
`overlap_crop_tile_count_order_cex`), `crop_data_with_overlap` produces
exactly `N * subdivision` tiles, every slice has extent
`window_size × window_size` (`ovAxisSlicesOk`), and the tile at index
`k * subdivision + a * columns + b` — image index outermost, then row
positions, then column positions — is the window of image `k` starting at
the `a`-th row start and `b`-th column start.  In particular, for
`window_size = 4`, `subdivision = 4` on a `6 × 6` image, `rows = cols = 2`
and the tiles span `[0:4]` and `[2:6]` along each axis. -/
theorem overlap_crop_tile_count_order :
    (∀ N H W (data : ℕ → ℕ → ℕ → ℕ → ℚ) ws s, 1 ≤ ws →
        (s = 1 ∨ (2 ≤ s ∧ s ≤ 2 ^ 53)) →
        ovCropAssertsOk H W ws s = true → ovWellFormed H W ws s = true →
        (cropWithOverlapList N H W data ws s).length = N * s ∧
          ovAxisSlicesOk H ws (ovRows s) = true ∧
          ovAxisSlicesOk W ws (ovCols s) = true ∧
          (∀ k a b, k < N → a < ovRows s → b < ovCols s → ∀ y x c,
            crop_data_with_overlap N H W data ws s
                (k * s + a * ovCols s + b) y x c =
              data k ((ovAxisStarts H ws (ovRows s)).getD a 0 + y)
                ((ovAxisStarts W ws (ovCols s)).getD b 0 + x) c)) ∧
    ovRows 4 = 2 ∧ ovCols 4 = 2 ∧
      ovAxisStarts 6 4 (ovRows 4) = [0, 2] ∧
      ovAxisStarts 6 4 (ovCols 4) = [0, 2] := by
  constructor
  · intro N H W data ws s hws hs hassert hwf
    obtain ⟨hpar, hwsH, hwsW, hcov⟩ := ovCropAssertsOk_spec H W ws s hassert
    obtain ⟨hrY, hrX⟩ := ovWellFormed_spec H W ws s hwf
    have hrows1 : 1 ≤ ovRows s := by
      rcases hs with h1 | ⟨h2, hb⟩
      · subst h1; decide
      · exact (ovConfig_spec s h2 hb).2.1
    have hcols1 : 1 ≤ ovCols s := by
      rcases hs with h1 | ⟨h2, hb⟩
      · subst h1; decide
      · exact ovCols_pos s h2 hb
    have hmul : ovRows s * ovCols s = s := by
      rcases hs with h1 | ⟨h2, hb⟩
      · subst h1; decide
      · exact (ovConfig_spec s h2 hb).1
    have hcovY : 2 ≤ ovRows s → H ≤ ws * ovRows s := by
      intro hge
      refine (hcov ?_).1
      intro h1
      rw [h1] at hge
      simp [ovRows, findMinOverlapConfig] at hge
    have hcovX : 2 ≤ ovCols s → W ≤ ws * ovCols s := by
      intro hge
      refine (hcov ?_).2
      intro h1
      rw [h1] at hge
      simp [ovCols, findMinOverlapConfig] at hge
    have hLY : (ovAxisPos H ws (ovRows s)).length = ovRows s :=
      ovAxisPos_length_all H ws (ovRows s) hrows1 hws hwsH hcovY hrY
    have hLX : (ovAxisPos W ws (ovCols s)).length = ovCols s :=
      ovAxisPos_length_all W ws (ovCols s) hcols1 hws hwsW hcovX hrX
    have hSY : (ovAxisStarts H ws (ovRows s)).length = ovRows s := by
      unfold ovAxisStarts
      rw [List.length_map]
      exact hLY
    have hSX : (ovAxisStarts W ws (ovCols s)).length = ovCols s := by
      unfold ovAxisStarts
      rw [List.length_map]
      exact hLX
    refine ⟨?_, ovAxis_slicesOk_all H ws (ovRows s) hrows1 hws hwsH hcovY hrY,
      ovAxis_slicesOk_all W ws (ovCols s) hcols1 hws hwsW hcovX hrX, ?_⟩
    · rw [cropWithOverlapList_length, hSY, hSX, hmul]
    · intro k a b hk ha hb y x c
      have hidx : k * s + a * ovCols s + b =
          k * ((ovAxisStarts H ws (ovRows s)).length *
              (ovAxisStarts W ws (ovCols s)).length) +
            (a * (ovAxisStarts W ws (ovCols s)).length + b) := by
        rw [hSY, hSX, hmul]
        ring
      rw [hidx, crop_tile_eq N H W data ws s k a b hk (by rw [hSY]; exact ha)
        (by rw [hSX]; exact hb)]
  · refine ⟨by decide, by decide, by decide, by decide⟩

/-- Counterexample to C5 as stated: `H = W = 8`, `window_size = 4`,
`subdivision = 16` satisfies every asserted precondition (`16` even,
`4 ≤ 8`, `4·4 = 16 ≥ 8`), but the geometry is ill-formed
(`r = 2 ≥ step = 2`): the row loop produces only 3 positions instead of
`rows = 4`, so only `3·3 = 9` windows per image are generated instead of
16 — and the last window `[2:8]` has extent 6, so the assignment into a
`4 × 4` tile raises `ValueError` (`ovAxisSlicesOk = false`). -/
theorem overlap_crop_tile_count_order_cex :
    ovCropAssertsOk 8 8 4 16 = true ∧ ovWellFormed 8 8 4 16 = false ∧
      (ovAxisPos 8 4 (ovRows 16)).length = 3 ∧
      ovAxisSlicesOk 8 4 (ovRows 16) = false ∧
      (cropWithOverlapList 1 8 8 (fun _ _ _ _ => 0) 4 16).length = 9 := by
  decide

/-- Witness for C5 at the spec's `6 × 6`, `window_size = 4`,
`subdivision = 4` scenario: 4 tiles, and tile `(a, b) = (1, 1)` is the
window starting at `(2, 2)`. -/
theorem overlap_crop_tile_count_order_witness :
    (cropWithOverlapList 1 6 6 (fun _ y x _ => (y * 10 + x : ℚ)) 4 4).length =
        1 * 4 ∧
      crop_data_with_overlap 1 6 6 (fun _ y x _ => (y * 10 + x : ℚ)) 4 4
        (0 * 4 + 1 * ovCols 4 + 1) 0 0 0 = 22 := by
  have h := overlap_crop_tile_count_order.1 1 6 6
    (fun _ y x _ => (y * 10 + x : ℚ)) 4 4 (by decide)
    (Or.inr ⟨by decide, by decide⟩) (by decide) (by decide)
  refine ⟨h.1, ?_⟩
  have ht := h.2.2.2 0 1 1 (by decide) (by decide) (by decide) 0 0 0
  rw [ht]
  have hg1 : (ovAxisStarts 6 4 (ovRows 4)).getD 1 0 = 2 := by decide
  have hg2 : (ovAxisStarts 6 4 (ovCols 4)).getD 1 0 = 2 := by decide
  rw [hg1, hg2]
  norm_num

/-- C6 (amended to square tiles): `crop_data` computes its grid from
`crop_shape[0]` on the height axis but pads to `h_num * crop_shape[1]`
(and symmetrically for width), so the claim's layout facts only hold when
`crop_shape[0] = crop_shape[1] = t` — for non-square shapes the padded
buffer can be smaller than the data and the copy raises, see
`grid_layout_coverage_cex`.  For square tiles: `rows = ceil(H/t)`,
`cols = ceil(W/t)`, `rows*t ≥ H`, `cols*t ≥ W`, `rows*t - t < H` (no wasted
full extra tile), the padding copy succeeds, and the padded volume holds
the original content unchanged in the low-index region with zeros beyond
it; in particular `H = 5`, `t = 2` yields `rows = 3`. -/
theorem grid_layout_coverage :
    (∀ H W t, 1 ≤ t → 1 ≤ H →
        crop_data_hnum H t = (H + t - 1) / t ∧
          crop_data_vnum W t = (W + t - 1) / t ∧
          H ≤ crop_data_hnum H t * t ∧ W ≤ crop_data_vnum W t * t ∧
          crop_data_hnum H t * t - t < H ∧
          crop_data_pad_ok H W t t = true ∧
          (∀ N C (data : ℕ → ℕ → ℕ → ℕ → ℚ) k y x c, k < N → c < C →
            y < H → x < W → crop_data_padded N H W C data k y x c = data k y x c) ∧
          (∀ N C (data : ℕ → ℕ → ℕ → ℕ → ℚ) k y x c, H ≤ y ∨ W ≤ x →
            crop_data_padded N H W C data k y x c = 0)) ∧
    crop_data_hnum 5 2 = 3 := by
  constructor
  · intro H W t ht hH
    have hvh : crop_data_vnum W t = crop_data_hnum W t := rfl
    obtain ⟨hlo, hhi⟩ := crop_data_hnum_bounds H t ht
    obtain ⟨hlo', hhi'⟩ := crop_data_hnum_bounds W t ht
    refine ⟨ceil_div_char H t _ ht hlo hhi, ?_, hlo, ?_, by omega, ?_, ?_, ?_⟩
    · rw [hvh]
      exact ceil_div_char W t _ ht hlo' hhi'
    · rw [hvh]
      exact hlo'
    · rw [crop_data_pad_ok, Bool.and_eq_true]
      constructor
      · simp only [decide_eq_true_eq]
        exact hlo
      · simp only [decide_eq_true_eq, hvh]
        exact hlo'
    · intro N C data k y x c hk hc hy hx
      rw [crop_data_padded, if_pos ⟨hk, hy, hx, hc⟩]
    · intro N C data k y x c hout
      rw [crop_data_padded, if_neg]
      rintro ⟨-, hy, hx, -⟩
      omega
  · decide

/-- Counterexample to C6 as stated (any `tw, th`): with `crop_shape = (2, 1)`
and `H = 5` the buffer height is `h_num * crop_shape[1] = ceil(5/2) * 1 = 3
< 5`, so the copy `r_data[:, :5, ...] = data` raises `ValueError` — there is
no padded volume holding the original content, and `rows * th = 3 < 5`
violates `rows*th ≥ H`. -/
theorem grid_layout_coverage_cex :
    crop_data_pad_ok 5 1 2 1 = false ∧ crop_data_hnum 5 2 * 1 = 3 := by
  decide

/-- Witness for C6 at `H = 5`, `W = 4`, `t = 2`. -/
theorem grid_layout_coverage_witness :
    crop_data_hnum 5 2 = (5 + 2 - 1) / 2 ∧ 5 ≤ crop_data_hnum 5 2 * 2 ∧
      crop_data_pad_ok 5 4 2 2 = true :=
  ⟨(grid_layout_coverage.1 5 4 2 (by decide) (by decide)).1,
    (grid_layout_coverage.1 5 4 2 (by decide) (by decide)).2.2.1,
    (grid_layout_coverage.1 5 4 2 (by decide) (by decide)).2.2.2.2.2.1⟩

/-- C7: `__foreground_percentage` returns `100 · #{pixels = class_tag} /
(h·w)`, a value in `[0, 100]` that is 0 for an all-background tile, and on
the `4 × 4` mask `[[1,1,0,0],[1,1,0,0],[0,0,0,0],[0,0,0,0]]` with class tag
1 it returns exactly 25.  The source function only reads its arguments (its
docstring's "between 0 and 1" is outdated; the returned scale is 0-100). -/
theorem foreground_percentage_spec :
    (∀ h w (mask : ℕ → ℕ → ℚ) tag, 1 ≤ h → 1 ≤ w →
        foreground_percentage h w mask tag =
          ((Finset.filter (fun p => mask p.1 p.2 = tag)
              (Finset.range h ×ˢ Finset.range w)).card : ℚ) * 100 /
            ((h : ℚ) * w) ∧
          0 ≤ foreground_percentage h w mask tag ∧
          foreground_percentage h w mask tag ≤ 100 ∧
          ((∀ i j, i < h → j < w → mask i j ≠ tag) →
            foreground_percentage h w mask tag = 0)) ∧
    foreground_percentage 4 4 cexMask7 1 = 25 := by
  constructor
  · intro h w mask tag hh hw
    have hcard : foreground_count h w mask tag =
        (Finset.filter (fun p => mask p.1 p.2 = tag)
          (Finset.range h ×ˢ Finset.range w)).card := by
      rw [Finset.card_filter]
      rw [Finset.sum_product]
      rfl
    have hle : foreground_count h w mask tag ≤ h * w := by
      rw [hcard]
      calc (Finset.filter (fun p => mask p.1 p.2 = tag)
            (Finset.range h ×ˢ Finset.range w)).card
          ≤ (Finset.range h ×ˢ Finset.range w).card := Finset.card_filter_le _ _
        _ = h * w := by rw [Finset.card_product, Finset.card_range,
            Finset.card_range]
    have hpos : (0 : ℚ) < (h : ℚ) * w := by
      have h1 : (0 : ℚ) < (h : ℚ) := by exact_mod_cast (by omega : 0 < h)
      have h2 : (0 : ℚ) < (w : ℚ) := by exact_mod_cast (by omega : 0 < w)
      positivity
    refine ⟨?_, ?_, ?_, ?_⟩
    · rw [foreground_percentage, hcard]
    · rw [foreground_percentage]
      positivity
    · rw [foreground_percentage, div_le_iff₀ hpos]
      have hcast : ((foreground_count h w mask tag : ℕ) : ℚ) ≤ ((h * w : ℕ) : ℚ) := by
        exact_mod_cast hle
      push_cast at hcast
      nlinarith
    · intro hbg
      have hzero : foreground_count h w mask tag = 0 := by
        rw [foreground_count]
        apply Finset.sum_eq_zero
        intro i hi
        apply Finset.sum_eq_zero
        intro j hj
        rw [Finset.mem_range] at hi hj
        rw [if_neg (hbg i j hi hj)]
      rw [foreground_percentage, hzero]
      norm_num
  · have hc : foreground_count 4 4 cexMask7 1 = 4 := by
      unfold foreground_count cexMask7
      simp [Finset.sum_range_succ]
      decide
    unfold foreground_percentage
    rw [hc]
    norm_num

/-- Witness for C7 at the concrete `4 × 4` mask. -/
theorem foreground_percentage_spec_witness :
    0 ≤ foreground_percentage 4 4 cexMask7 1 ∧
      foreground_percentage 4 4 cexMask7 1 ≤ 100 :=
  ⟨(foreground_percentage_spec.1 4 4 cexMask7 1 (by decide) (by decide)).2.1,
    (foreground_percentage_spec.1 4 4 cexMask7 1 (by decide) (by decide)).2.2.1⟩

/-- C3 (code bug in `crop_data`'s discard walk, lines 404-416): with the
`2 × 2` image `[[1,2],[3,4]]`, mask `[[1,0],[0,0]]`, `crop_shape = (1,1)`
and `d_percentage = 50`, exactly tile `cont = 0` passes the filter (its
foreground ratio is 100 > 50; the other three have ratio 0), so
`selected_images = [0]` and the output array has a single row.  But the
walk's condition `selected_images[l_i] == cont or l_i ==
len(selected_images)-1` keeps firing once `l_i` has reached the last
selected index, so tiles 1, 2 and 3 each overwrite row 0: the returned
array holds the discarded bottom-right tile (value 4) instead of the
selected top-left tile (value 1), contradicting both the claim and the
function's own docstring ("images that have less foreground pixels … will
be discarded"). -/
theorem crop_data_discard_filter_bug :
    crop_data_selected 1 2 2 1 cexMask3 1 1 50 = [0] ∧
      crop_data_tileP 1 2 2 1 cexMask3 1 1 (0, 0, 0) = 100 ∧
      crop_data_tile 1 2 2 1 cexData3 1 1 (0, 0, 0) 0 0 0 = 1 ∧
      crop_data_tile 1 2 2 1 cexData3 1 1 (0, 1, 1) 0 0 0 = 4 ∧
      crop_data_discard_out 1 2 2 1 cexData3 cexMask3 1 1 50 0 0 0 0 = 4 := by
  have hh : crop_data_hnum 2 1 = 2 := by decide
  have hv : crop_data_vnum 2 1 = 2 := by decide
  have henum : (gridTriples 1 2 2).enum =
      [(0, 0, 0, 0), (1, 0, 0, 1), (2, 0, 1, 0), (3, 0, 1, 1)] := by decide
  have p00 : crop_data_tileP 1 2 2 1 cexMask3 1 1 (0, 0, 0) = 100 := by
    unfold crop_data_tileP
    norm_num [pySliceLen, crop_data_hnum, crop_data_vnum]
    unfold foreground_percentage foreground_count
    norm_num [Finset.sum_range_one, crop_data_padded, cexMask3,
      Finset.filter_singleton]
  have p01 : crop_data_tileP 1 2 2 1 cexMask3 1 1 (0, 0, 1) = 0 := by
    unfold crop_data_tileP
    norm_num [pySliceLen, crop_data_hnum, crop_data_vnum]
    unfold foreground_percentage foreground_count
    norm_num [Finset.sum_range_one, crop_data_padded, cexMask3,
      Finset.filter_singleton]
  have p10 : crop_data_tileP 1 2 2 1 cexMask3 1 1 (0, 1, 0) = 0 := by
    unfold crop_data_tileP
    norm_num [pySliceLen, crop_data_hnum, crop_data_vnum]
    unfold foreground_percentage foreground_count
    norm_num [Finset.sum_range_one, crop_data_padded, cexMask3,
      Finset.filter_singleton]
  have p11 : crop_data_tileP 1 2 2 1 cexMask3 1 1 (0, 1, 1) = 0 := by
    unfold crop_data_tileP
    norm_num [pySliceLen, crop_data_hnum, crop_data_vnum]
    unfold foreground_percentage foreground_count
    norm_num [Finset.sum_range_one, crop_data_padded, cexMask3,
      Finset.filter_singleton]
  have hsel : crop_data_selected 1 2 2 1 cexMask3 1 1 50 = [0] := by
    unfold crop_data_selected
    rw [hh, hv, henum]
    simp only [List.filter_cons, List.filter_nil, p00, p01, p10, p11]
    norm_num
  refine ⟨hsel, p00, ?_, ?_, ?_⟩
  · norm_num [crop_data_tile, crop_data_padded, cexData3]
  · norm_num [crop_data_tile, crop_data_padded, cexData3]
  · unfold crop_data_discard_out
    rw [hh, hv, hsel, henum]
    simp only [List.foldl]
    norm_num [Function.update]
    unfold crop_data_tile crop_data_padded cexData3
    norm_num

/-- C8 (amended): the flip block's four outcomes are mutually exclusive
over one uniform draw partitioned at 0.25, 0.5 and 0.75 (the outcome is a
function of the draw, and the three flip outcomes are characterised by
disjoint draw intervals), with vertical-only gated by the `vflip` flag but
horizontal-only AND vertical+horizontal gated by the `hflip` flag alone —
so a vertical flip can fire with `vflip` disabled (see
`flip_outcomes_gating_cex`); when both flags are disabled no flip is ever
applied. -/
theorem flip_outcomes_gating :
    (∀ vf hf p,
        (flipOutcome vf hf p = FlipKind.vOnly ↔
          vf = true ∧ 0 ≤ p ∧ p < 1/4) ∧
        (flipOutcome vf hf p = FlipKind.hOnly ↔
          hf = true ∧ 1/4 ≤ p ∧ p < 1/2) ∧
        (flipOutcome vf hf p = FlipKind.both ↔
          hf = true ∧ 1/2 ≤ p ∧ p < 3/4)) ∧
    (∀ p H W img, applyFlip false false p H W img = img) := by
  constructor
  · intro vf hf p
    unfold flipOutcome
    by_cases h1 : vf = true ∧ 0 ≤ p ∧ p < 1/4
    · rw [if_pos h1]
      refine ⟨iff_of_true rfl h1, iff_of_false (by decide) ?_, 
        iff_of_false (by decide) ?_⟩
      · rintro ⟨-, hge, -⟩
        rcases h1 with ⟨-, -, hlt⟩
        linarith
      · rintro ⟨-, hge, -⟩
        rcases h1 with ⟨-, -, hlt⟩
        linarith
    · rw [if_neg h1]
      by_cases h2 : hf = true ∧ 1/4 ≤ p ∧ p < 1/2
      · rw [if_pos h2]
        refine ⟨iff_of_false (by decide) h1, iff_of_true rfl h2,
          iff_of_false (by decide) ?_⟩
        rintro ⟨-, hge, -⟩
        rcases h2 with ⟨-, -, hlt⟩
        linarith
      · rw [if_neg h2]
        by_cases h3 : hf = true ∧ 1/2 ≤ p ∧ p < 3/4
        · rw [if_pos h3]
          exact ⟨iff_of_false (by decide) h1, iff_of_false (by decide) h2,
            iff_of_true rfl h3⟩
        · rw [if_neg h3]
          exact ⟨iff_of_false (by decide) h1, iff_of_false (by decide) h2,
            iff_of_false (by decide) h3⟩
  · intro p H W img
    unfold applyFlip flipOutcome
    simp

/-- Counterexample to C8's flag claim as stated: with `vflip` disabled,
`hflip` enabled and draw `0.6 ∈ [0.5, 0.75)` the source's third branch
fires (it tests only `hflip`) and applies a vertical flip: on a `2 × 1`
image whose rows are `0` and `1`, the output's top pixel holds the bottom
row's value. -/
theorem flip_outcomes_gating_cex :
    flipOutcome false true (3/5) = FlipKind.both ∧
      applyFlip false true (3/5) 2 1 (fun y _ _ => (y : ℚ)) 0 0 0 = 1 ∧
      (fun y _ _ => (y : ℚ)) 0 0 0 = 0 := by
  have ho : flipOutcome false true (3/5) = FlipKind.both := by
    unfold flipOutcome
    norm_num
  refine ⟨ho, ?_, by norm_num⟩
  unfold applyFlip
  rw [ho]
  norm_num [npFlip0, npFlip1]

/-- C9: in validation mode (`val = True`) `random_crop` sets the origin to
`(0, 0)` before any random draw, so for any single-channel image two calls
with arbitrary (distinct) random draws return identical outputs, namely the
origin crops `img[0:dy, 0:dx, :]` and `mask[0:dy, 0:dx, :]`. -/
theorem random_crop_val_deterministic :
    ∀ H W (img mask : ℕ → ℕ → ℕ → ℚ) dy dx pm pidx1 ry1 rx1 pidx2 ry2 rx2,
      random_crop H W 1 img mask dy dx true pm pidx1 ry1 rx1 =
        random_crop H W 1 img mask dy dx true pm pidx2 ry2 rx2 ∧
      random_crop H W 1 img mask dy dx true pm pidx1 ry1 rx1 =
        some (fun a b c => img a b c, fun a b c => mask a b c) := by
  intro H W img mask dy dx pm pidx1 ry1 rx1 pidx2 ry2 rx2
  constructor
  · rfl
  · unfold random_crop
    simp

/-- C10: `random_crop` begins with `assert img.shape[2] == 1`; for any
channel count other than 1 it fails (returns `none` in this embedding)
before computing any crop, in every mode. -/
theorem random_crop_channel_assert :
    ∀ H W Cch (img mask : ℕ → ℕ → ℕ → ℚ) dy dx val pm pidx ry rx, Cch ≠ 1 →
      random_crop H W Cch img mask dy dx val pm pidx ry rx = none := by
  intro H W Cch img mask dy dx val pm pidx ry rx h
  unfold random_crop
  rw [if_neg h]

/-- Witness for C10 at a 3-channel input. -/
theorem random_crop_channel_assert_witness :
    random_crop 2 2 3 (fun _ _ _ => 0) (fun _ _ _ => 0) 1 1 false false 0 0 0 =
      none :=
  random_crop_channel_assert 2 2 3 (fun _ _ _ => 0) (fun _ _ _ => 0) 1 1
    false false 0 0 0 (by decide)
